import Mathlib

/-!
# STGen custom UDP probe protocol — verification of the specification

Shallow embedding of `src/protocols/custom_udp/custom_udp_client.c` and
`src/protocols/custom_udp/custom_udp_server.c`.  The companion header
`stgen_compat.h` (declaring `stgen_hdr_t` and `now_us`) is not part of the
supplied sources; its content is modelled from the specification where noted.

Machine integers are modelled as `Nat`/`Int` with explicit reductions
modulo `2^32` / `2^64` where the C code would overflow or convert.
-/

namespace STGen

/-- Modelled from the spec: `stgen_compat.h` is missing from the sources; per
§3 of the spec it defines `stgen_hdr_t` as a packed pair of an unsigned
32-bit `seq` and an unsigned 64-bit `send_time_us`.  Field values are `Nat`;
well-formed values are `< 2^32` resp. `< 2^64`. -/
structure stgen_hdr_t where
  seq : Nat
  send_time_us : Nat
deriving DecidableEq, Repr

/-- Modelled from the spec: `sizeof(stgen_hdr_t)` for the packed wire layout
`{uint32, uint64}` of §4.1 — 4 + 8 = 12 bytes. -/
def stgen_hdr_size : Nat := 12

/-- The fixed payload length: the client allocates
`sizeof(stgen_hdr_t) + 100` bytes (`custom_udp_client.c`, `malloc` call). -/
def payload_len : Nat := 100

/-- Little-endian byte encoding of `v` on `w` bytes — the in-memory layout of
an unsigned integer field on the little-endian Linux hosts this repository
targets.  Each output byte is `< 256`. -/
def leBytes : Nat → Nat → List Nat
  | 0, _ => []
  | w + 1, v => v % 256 :: leBytes w (v / 256)

/-- Big-endian (network byte order) encoding of `v` on `w` bytes. -/
def beBytes (w v : Nat) : List Nat := (leBytes w v).reverse

/-- Value of a little-endian byte list. -/
def leVal : List Nat → Nat
  | [] => 0
  | b :: bs => b + 256 * leVal bs

/-- The bytes of `stgen_hdr_t` as the client's `sendto` transmits them: the
raw struct memory, i.e. each field in host (little-endian) byte order with no
`htonl`/`htonll` conversion — neither C file performs any byte swapping on
the header fields. -/
def hdrBytesHost (h : stgen_hdr_t) : List Nat :=
  leBytes 4 h.seq ++ leBytes 8 h.send_time_us

/-- The header bytes as they would appear if the multi-byte fields were
placed in network byte order (big-endian), following the words of the spec's
§6 wire-protocol contract.  Used only to compare with `hdrBytesHost`. -/
def hdrBytesNetwork (h : stgen_hdr_t) : List Nat :=
  beBytes 4 h.seq ++ beBytes 8 h.send_time_us

/-- The server's view of the receive buffer: `stgen_hdr_t *hdr =
(stgen_hdr_t*)buffer` overlays the same struct on the leading bytes
(`custom_udp_server.c` line 51), so the fields are read back little-endian
from offsets 0 and 4. -/
def decodeHdr (buffer : List Nat) : stgen_hdr_t :=
  { seq := leVal (buffer.take 4)
    send_time_us := leVal ((buffer.drop 4).take 8) }

/-- The full datagram the client transmits: header bytes followed by the
100-byte padding payload (content unspecified, supplied as a parameter). -/
def clientDatagram (h : stgen_hdr_t) (pl : List Nat) : List Nat :=
  hdrBytesHost h ++ pl

/-- Reinterpretation of a `uint64` value as C's `int64_t`
(two's complement). -/
def toInt64 (x : Nat) : Int :=
  if x < 2 ^ 63 then (x : Int) else (x : Int) - 2 ^ 64

/-- The latency computation of `custom_udp_server.c` lines 52–54:
`int64_t lat = now - hdr->send_time_us;` (unsigned 64-bit subtraction, then
reinterpreted as `int64_t`) followed by `if (lat < 0) lat = 0;`. -/
def latOf (now send : Nat) : Int :=
  let lat := toInt64 ((2 ^ 64 + now % 2 ^ 64 - send % 2 ^ 64) % 2 ^ 64)
  if lat < 0 then 0 else lat

/-- One log line, as produced by `fprintf(fp, "%u %ld\n", hdr->seq, lat)`. -/
def logLine (seq : Nat) (lat : Int) : String :=
  toString seq ++ " " ++ toString lat ++ "\n"

/-- One iteration of the server's receive loop (`custom_udp_server.c` lines
46–57), given the value `n` returned by `recvfrom`, the buffer contents after
the call, and the value `now_us()` would return.  The guard models the C
comparison `n >= sizeof(stgen_hdr_t)` faithfully: `n` has type `int` and
`sizeof` has type `size_t`, so `n` is converted to a 64-bit unsigned value
(`n mod 2^64`) before the comparison.  Returns the `(seq, lat)` records
appended to the log by this iteration. -/
def serverStep (now : Nat) (n : Int) (buffer : List Nat) : List (Nat × Int) :=
  if stgen_hdr_size ≤ (n % 2 ^ 64).toNat then
    let hdr := decodeHdr buffer
    [(hdr.seq % 2 ^ 32, latOf now (hdr.send_time_us % 2 ^ 64))]
  else
    []

/-- The log lines appended by one server loop iteration. -/
def serverStepLines (now : Nat) (n : Int) (buffer : List Nat) : List String :=
  (serverStep now n buffer).map fun r => logLine r.1 r.2

/-- One receive event observed by the server: the `recvfrom` return value,
the buffer contents after the call, and the receipt-time clock value. -/
structure RecvEvent where
  now : Nat
  n : Int
  buffer : List Nat

/-- The records the server's loop appends over a finite sequence of receive
events (the cooperative run flag eventually stops the loop; events after the
flag clears simply do not occur, so the trace is finite). -/
def serverRun (evs : List RecvEvent) : List (Nat × Int) :=
  evs.flatMap fun e => serverStep e.now e.n e.buffer

/-- The log content (list of lines) over a finite sequence of receive
events. -/
def serverRunLines (evs : List RecvEvent) : List String :=
  (serverRun evs).map fun r => logLine r.1 r.2

/-- The headers of the packets the client transmits, starting from sequence
state `seq`, one per loop iteration; `ts` supplies the `now_us()` value of
each iteration.  Models `custom_udp_client.c` lines 37–44: `hdr->seq++`
(32-bit wrap) then `hdr->send_time_us = now_us()` then `sendto`. -/
def clientPackets (seq : Nat) : List Nat → List stgen_hdr_t
  | [] => []
  | t :: ts =>
    let s := (seq + 1) % 2 ^ 32
    ⟨s, t % 2 ^ 64⟩ :: clientPackets s ts

/-- Observable actions of the client process. -/
inductive ClientAction where
  | send (h : stgen_hdr_t) (len : Nat)
  | sleep (usec : Nat)
  | freeBuf
  | closeSock
deriving DecidableEq, Repr

/-- The client's main loop (`custom_udp_client.c` lines 37–45): each
iteration first checks the cooperative `run` flag; while it reads true the
client increments `seq` (mod `2^32`), stamps `send_time_us`, transmits the
full `sizeof(stgen_hdr_t) + 100`-byte datagram, and sleeps 100000 µs.  `obs`
lists, per flag check, the flag value observed and the `now_us()` value of
that iteration. -/
def clientLoop (seq : Nat) : List (Bool × Nat) → List ClientAction
  | [] => []
  | (false, _) :: _ => []
  | (true, t) :: rest =>
    let s := (seq + 1) % 2 ^ 32
    ClientAction.send ⟨s, t % 2 ^ 64⟩ (stgen_hdr_size + payload_len) ::
      ClientAction.sleep 100000 :: clientLoop s rest

/-- The headers actually transmitted in a client action trace. -/
def sentHeaders (tr : List ClientAction) : List stgen_hdr_t :=
  tr.filterMap fun a =>
    match a with
    | ClientAction.send h _ => some h
    | _ => none

/-- The client's `main` after successful startup: run the loop from sequence
state 0, then `free(hdr)`, `close(sockfd)`, `return 0`.  Result: the action
trace and the exit status. -/
def clientMain (obs : List (Bool × Nat)) : List ClientAction × Nat :=
  (clientLoop 0 obs ++ [ClientAction.freeBuf, ClientAction.closeSock], 0)

/-- The client's `main` including argument checking (`custom_udp_client.c`
lines 14–17): with `argc < 4` (fewer than 3 positional arguments after the
program name) it prints a usage line to stderr and returns 1.  Result:
stderr lines, action trace, exit status. -/
def client_main (argv0 : String) (argc : Nat) (obs : List (Bool × Nat)) :
    List String × List ClientAction × Nat :=
  if argc < 4 then
    (["Usage: " ++ argv0 ++ " <ip> <port> <id>\n"], [], 1)
  else
    ([], (clientMain obs).1, (clientMain obs).2)

/-- The server's `main` (`custom_udp_server.c`): with `argc < 3` (fewer than
2 positional arguments) it prints a usage line to stderr and returns 1; a
failed `bind` or a failed `fopen("recv.log", "w")` prints an error and
returns 1; otherwise it runs the receive loop over the events and returns 0.
Result: stderr lines, appended log records, exit status. -/
def server_main (argv0 : String) (argc : Nat) (bindOk fopenOk : Bool)
    (evs : List RecvEvent) : List String × List (Nat × Int) × Nat :=
  if argc < 3 then
    (["Usage: " ++ argv0 ++ " <ip> <port>\n"], [], 1)
  else if bindOk = false then
    (["bind failed"], [], 1)
  else if fopenOk = false then
    (["recv.log"], [], 1)
  else
    ([], serverRun evs, 0)

/-- The receive events describing a lossless in-order delivery of the given
packets to the server: each `recvfrom` call returns the full corresponding
datagram (header plus payload `pl`), with `nows` supplying the receipt-time
clock values. -/
def mkRecvEvents (nows : List Nat) (pkts : List stgen_hdr_t) (pl : List Nat) :
    List RecvEvent :=
  List.zipWith
    (fun now h =>
      ⟨now, ((clientDatagram h pl).length : Int), clientDatagram h pl⟩)
    nows pkts

/-! ## Supporting lemmas -/

theorem leBytes_length (w : Nat) : ∀ v : Nat, (leBytes w v).length = w := by
  induction w with
  | zero => intro v; rfl
  | succ w ih => intro v; simp [leBytes, ih]

theorem leVal_leBytes (w : Nat) : ∀ v : Nat, leVal (leBytes w v) = v % 256 ^ w := by
  induction w with
  | zero => intro v; simp [leBytes, leVal, Nat.mod_one]
  | succ w ih =>
    intro v
    have hpow : (256 : Nat) ^ (w + 1) = 256 * 256 ^ w := by ring
    rw [leBytes, leVal, ih, hpow, Nat.mod_mul]

theorem decodeHdr_clientDatagram (h : stgen_hdr_t) (pl : List Nat) :
    decodeHdr (clientDatagram h pl) =
      ⟨h.seq % 2 ^ 32, h.send_time_us % 2 ^ 64⟩ := by
  have h4 : (clientDatagram h pl).take 4 = leBytes 4 h.seq := by
    have := List.take_left (leBytes 4 h.seq) (leBytes 8 h.send_time_us ++ pl)
    simp only [leBytes_length] at this
    simp [clientDatagram, hdrBytesHost, this]
  have h8 : ((clientDatagram h pl).drop 4).take 8 = leBytes 8 h.send_time_us := by
    have hd : (clientDatagram h pl).drop 4 = leBytes 8 h.send_time_us ++ pl := by
      have := List.drop_left (leBytes 4 h.seq) (leBytes 8 h.send_time_us ++ pl)
      simp only [leBytes_length] at this
      simp [clientDatagram, hdrBytesHost, this]
    rw [hd]
    have := List.take_left (leBytes 8 h.send_time_us) pl
    simp only [leBytes_length] at this
    simp [this]
  have e32 : (256 : Nat) ^ 4 = 2 ^ 32 := by norm_num
  have e64 : (256 : Nat) ^ 8 = 2 ^ 64 := by norm_num
  rw [decodeHdr, h4, h8, leVal_leBytes, leVal_leBytes, e32, e64]

theorem latOf_nonneg (now send : Nat) : 0 ≤ latOf now send := by
  unfold latOf
  dsimp only
  split
  · exact le_refl 0
  · omega

theorem latOf_clamp (now send : Nat) (hn : now < 2 ^ 64) (hs : send < 2 ^ 64)
    (hlo : send ≤ now + 2 ^ 63) (hhi : now < send + 2 ^ 63) :
    latOf now send = max ((now : Int) - (send : Int)) 0 := by
  unfold latOf toInt64
  have key : (2 ^ 64 + now % 2 ^ 64 - send % 2 ^ 64) % 2 ^ 64
      = if send ≤ now then now - send else 2 ^ 64 - (send - now) := by
    split <;> omega
  dsimp only
  split_ifs at key ⊢ <;> omega

theorem serverStep_accepted (now : Nat) (n : Int) (buffer : List Nat)
    (h1 : (stgen_hdr_size : Int) ≤ n) (h2 : n < 2 ^ 64) :
    serverStep now n buffer =
      [((decodeHdr buffer).seq % 2 ^ 32,
        latOf now ((decodeHdr buffer).send_time_us % 2 ^ 64))] := by
  rw [serverStep, if_pos]
  have h12 : stgen_hdr_size = 12 := rfl
  rw [h12] at h1 ⊢
  omega

theorem serverStep_datagram (now : Nat) (h : stgen_hdr_t) (pl : List Nat)
    (hs : h.seq < 2 ^ 32) (ht : h.send_time_us < 2 ^ 64)
    (hpl : pl.length = payload_len) :
    serverStep now ((clientDatagram h pl).length : Int) (clientDatagram h pl)
      = [(h.seq, latOf now h.send_time_us)] := by
  have e1 : h.seq % 2 ^ 32 = h.seq := Nat.mod_eq_of_lt hs
  have e2 : h.send_time_us % 2 ^ 64 = h.send_time_us := Nat.mod_eq_of_lt ht
  have hlen : (clientDatagram h pl).length = 112 := by
    simp [clientDatagram, hdrBytesHost, leBytes_length, hpl, payload_len]
  rw [hlen,
    serverStep_accepted now ((112 : Nat) : Int) _ (by norm_num [stgen_hdr_size])
      (by norm_num),
    decodeHdr_clientDatagram]
  simp only [e1, e2]

theorem clientPackets_length (ts : List Nat) :
    ∀ seq, (clientPackets seq ts).length = ts.length := by
  induction ts with
  | nil => intro seq; rfl
  | cons t ts ih => intro seq; simp [clientPackets, ih]

theorem clientPackets_seq_map (ts : List Nat) :
    ∀ seq, (clientPackets seq ts).map stgen_hdr_t.seq
      = (List.range ts.length).map (fun i => (seq + i + 1) % 2 ^ 32) := by
  induction ts with
  | nil => intro seq; rfl
  | cons t ts ih =>
    intro seq
    rw [clientPackets]
    simp only [List.map_cons, List.length_cons, List.range_succ_eq_map,
      List.map_map, ih ((seq + 1) % 2 ^ 32)]
    refine congrArg₂ _ (by omega) (List.map_congr_left ?_)
    intro i _
    simp only [Function.comp_apply, Nat.succ_eq_add_one]
    omega

theorem clientPackets_wf (ts : List Nat) :
    ∀ seq, ∀ h ∈ clientPackets seq ts,
      h.seq < 2 ^ 32 ∧ h.send_time_us < 2 ^ 64 := by
  induction ts with
  | nil => intro seq h hm; cases hm
  | cons t ts ih =>
    intro seq h hm
    rw [clientPackets] at hm
    rcases List.mem_cons.mp hm with hh | hh
    · subst hh
      exact ⟨Nat.mod_lt _ (by norm_num), Nat.mod_lt _ (by norm_num)⟩
    · exact ih _ h hh

theorem serverRun_mkRecvEvents (pl : List Nat) (hpl : pl.length = payload_len) :
    ∀ (pkts : List stgen_hdr_t) (nows : List Nat),
      (∀ h ∈ pkts, h.seq < 2 ^ 32 ∧ h.send_time_us < 2 ^ 64) →
      serverRun (mkRecvEvents nows pkts pl)
        = List.zipWith (fun now h => (h.seq, latOf now h.send_time_us))
            nows pkts := by
  intro pkts
  induction pkts with
  | nil => intro nows _; simp [mkRecvEvents, serverRun]
  | cons h pkts ih =>
    intro nows hwf
    cases nows with
    | nil => simp [mkRecvEvents, serverRun]
    | cons now nows =>
      have hh := hwf h (List.mem_cons_self h pkts)
      rw [mkRecvEvents, List.zipWith_cons_cons, List.zipWith_cons_cons]
      rw [serverRun, List.flatMap_cons]
      have hstep := serverStep_datagram now h pl hh.1 hh.2 hpl
      rw [show (⟨now, ((clientDatagram h pl).length : Int),
            clientDatagram h pl⟩ : RecvEvent).buffer = clientDatagram h pl
          from rfl]
      rw [show serverStep now ((clientDatagram h pl).length : Int)
            (clientDatagram h pl) = [(h.seq, latOf now h.send_time_us)]
          from hstep]
      have := ih nows (fun g hg => hwf g (List.mem_cons_of_mem _ hg))
      rw [mkRecvEvents] at this
      rw [serverRun] at this
      simp [this]

theorem map_fst_zipWith_record :
    ∀ (nows : List Nat) (pkts : List stgen_hdr_t),
      pkts.length ≤ nows.length →
      (List.zipWith (fun now h => (h.seq, latOf now h.send_time_us))
          nows pkts).map Prod.fst
        = pkts.map stgen_hdr_t.seq := by
  intro nows
  induction nows with
  | nil =>
    intro pkts hle
    have : pkts = [] := List.length_eq_zero.mp (Nat.le_zero.mp hle)
    subst this
    rfl
  | cons now nows ih =>
    intro pkts hle
    cases pkts with
    | nil => rfl
    | cons h pkts =>
      simp only [List.zipWith_cons_cons, List.map_cons]
      rw [ih pkts (by simpa using hle)]

/-! ## Claims -/

/-- C1: for every received datagram of length at least the header size, the
server appends exactly one log line `"<sequence> <latency_us>\n"` with
`sequence` copied from the received header and `latency_us` equal to
`now_us() - send_time_us` clamped to zero when negative; the logged value is
nonnegative even when `now < send_time_us`.  The clock values are within the
`int64` range of each other, as any real microsecond clocks are. -/
theorem C1_latency_record (seq send now : Nat) (pl : List Nat)
    (hseq : seq < 2 ^ 32) (hsend : send < 2 ^ 64) (hnow : now < 2 ^ 64)
    (hpl : pl.length = payload_len)
    (hlo : send ≤ now + 2 ^ 63) (hhi : now < send + 2 ^ 63) :
    serverStepLines now ((clientDatagram ⟨seq, send⟩ pl).length : Int)
        (clientDatagram ⟨seq, send⟩ pl)
      = [logLine seq (latOf now send)] ∧
    latOf now send = max ((now : Int) - (send : Int)) 0 ∧
    0 ≤ latOf now send := by
  refine ⟨?_, latOf_clamp now send hnow hsend hlo hhi, latOf_nonneg now send⟩
  have hlen : (clientDatagram ⟨seq, send⟩ pl).length = 112 := by
    simp [clientDatagram, hdrBytesHost, leBytes_length, hpl, payload_len]
  have e1 : seq % 2 ^ 32 = seq := Nat.mod_eq_of_lt hseq
  have e2 : send % 2 ^ 64 = send := Nat.mod_eq_of_lt hsend
  rw [serverStepLines, hlen,
    serverStep_accepted now ((112 : Nat) : Int) _ (by norm_num [stgen_hdr_size])
      (by norm_num),
    decodeHdr_clientDatagram]
  dsimp only
  simp only [e1, e2, List.map_cons, List.map_nil]

/-- Witness for C1 at `seq = 7`, `send = 100`, `now = 250`, a 100-byte
payload of zeros. -/
theorem C1_latency_record_witness :
    serverStepLines 250
        ((clientDatagram ⟨7, 100⟩ (List.replicate 100 0)).length : Int)
        (clientDatagram ⟨7, 100⟩ (List.replicate 100 0))
      = [logLine 7 (latOf 250 100)] ∧
    latOf 250 100 = max ((250 : Int) - (100 : Int)) 0 ∧
    0 ≤ latOf 250 100 :=
  C1_latency_record 7 100 250 (List.replicate 100 0) (by norm_num)
    (by norm_num) (by norm_num) (by simp [payload_len]) (by norm_num)
    (by norm_num)

/-- C2: a header built by the client with `sequence = s` and
`send_time_us = t`, transmitted as the datagram's leading bytes and decoded
by the server from the received buffer, yields the same `s` and `t`: both
processes overlay the identical struct layout, so there is no byte-order or
field-width mismatch between them. -/
theorem C2_wire_roundtrip (s t : Nat) (pl : List Nat)
    (hs : s < 2 ^ 32) (ht : t < 2 ^ 64) :
    decodeHdr (clientDatagram ⟨s, t⟩ pl) = ⟨s, t⟩ := by
  have e1 : s % 2 ^ 32 = s := Nat.mod_eq_of_lt hs
  have e2 : t % 2 ^ 64 = t := Nat.mod_eq_of_lt ht
  rw [decodeHdr_clientDatagram]
  simp only [e1, e2]

/-- Witness for C2 at `s = 3`, `t = 7`, empty payload. -/
theorem C2_wire_roundtrip_witness :
    decodeHdr (clientDatagram ⟨3, 7⟩ []) = ⟨3, 7⟩ :=
  C2_wire_roundtrip 3 7 [] (by norm_num) (by norm_num)

/-- C4 counterexample: the claim as stated is false — the header fields are
not placed on the wire in network byte order.  For the header with
`sequence = 1`, `send_time_us = 1`, the bytes transmitted (raw struct memory,
no `htonl`/`htonll` in either C file) differ from the network-byte-order
encoding of the same field values. -/
theorem C4_network_order_counterexample :
    hdrBytesHost ⟨1, 1⟩ ≠ hdrBytesNetwork ⟨1, 1⟩ := by decide

/-- C4 (amended): every transmitted datagram is exactly
`sizeof(header) + 100` bytes, and the multi-byte integer header fields are
placed on the wire in host byte order, with no conversion to network byte
order; the layout is consistent between sender and receiver, which overlay
the identical struct on the bytes, so decoding recovers the field values
exactly. -/
theorem C4_datagram_size_host_order (h : stgen_hdr_t) (pl : List Nat)
    (hs : h.seq < 2 ^ 32) (ht : h.send_time_us < 2 ^ 64)
    (hpl : pl.length = payload_len) :
    (clientDatagram h pl).length = stgen_hdr_size + 100 ∧
    clientDatagram h pl = leBytes 4 h.seq ++ leBytes 8 h.send_time_us ++ pl ∧
    decodeHdr (clientDatagram h pl) = h := by
  refine ⟨?_, ?_, ?_⟩
  · simp [clientDatagram, hdrBytesHost, leBytes_length, hpl, payload_len,
      stgen_hdr_size]
  · simp [clientDatagram, hdrBytesHost, List.append_assoc]
  · have e1 : h.seq % 2 ^ 32 = h.seq := Nat.mod_eq_of_lt hs
    have e2 : h.send_time_us % 2 ^ 64 = h.send_time_us := Nat.mod_eq_of_lt ht
    rw [decodeHdr_clientDatagram]
    simp only [e1, e2]

/-- Witness for the amended C4 at `seq = 1`, `send_time_us = 1`, 100-byte
zero payload. -/
theorem C4_datagram_size_host_order_witness :
    (clientDatagram ⟨1, 1⟩ (List.replicate 100 0)).length = stgen_hdr_size + 100 ∧
    clientDatagram ⟨1, 1⟩ (List.replicate 100 0)
      = leBytes 4 1 ++ leBytes 8 1 ++ List.replicate 100 0 ∧
    decodeHdr (clientDatagram ⟨1, 1⟩ (List.replicate 100 0)) = ⟨1, 1⟩ :=
  C4_datagram_size_host_order ⟨1, 1⟩ (List.replicate 100 0) (by norm_num)
    (by norm_num) (by simp [payload_len])

/-- C5: a received datagram shorter than the header size produces no log
record and no log line: it is silently dropped and the loop continues. -/
theorem C5_short_datagram_dropped (now : Nat) (n : Int) (buffer : List Nat)
    (h0 : 0 ≤ n) (h1 : n < (stgen_hdr_size : Int)) :
    serverStep now n buffer = [] ∧ serverStepLines now n buffer = [] := by
  have hg : serverStep now n buffer = [] := by
    rw [serverStep, if_neg]
    have h12 : ((stgen_hdr_size : Nat) : Int) = 12 := rfl
    rw [h12] at h1
    show ¬ 12 ≤ (n % 2 ^ 64).toNat
    omega
  exact ⟨hg, by rw [serverStepLines, hg]; rfl⟩

/-- Witness for C5: a 4-byte datagram (scenario B of the spec) is dropped. -/
theorem C5_short_datagram_dropped_witness :
    serverStep 999 4 [250, 251, 252, 253] = [] ∧
    serverStepLines 999 4 [250, 251, 252, 253] = [] :=
  C5_short_datagram_dropped 999 4 [250, 251, 252, 253] (by norm_num)
    (by norm_num [stgen_hdr_size])

/-- C9 (code bug): the claim — no log line when `recvfrom` fails — matches
the intent of the length guard, but the C code compares the signed `int`
result `n` with the unsigned `size_t` value `sizeof(stgen_hdr_t)`, so
`n = -1` is converted to `2^64 - 1`, the guard passes, and the server parses
the stale buffer contents and appends a log line anyway.  Here the buffer
still holds the previous datagram (header `⟨5, 500⟩`), and the failed
iteration logs `"5 500\n"`. -/
theorem C9_recvfrom_error_logs_anyway :
    serverStep 1000 (-1) (clientDatagram ⟨5, 500⟩ (List.replicate 100 0))
      = [(5, 500)] ∧
    serverStepLines 1000 (-1) (clientDatagram ⟨5, 500⟩ (List.replicate 100 0))
      = ["5 500\n"] := by
  constructor
  · decide
  · rfl

/-- C10: the server's only acceptance criterion is the length check — any
received length between the header size and the 1024-byte buffer capacity is
parsed and logged as exactly one record, regardless of whether it equals
`sizeof(header) + 100` (missing, short, or oversized payloads are not
rejected). -/
theorem C10_length_is_only_criterion (now : Nat) (n : Int) (buffer : List Nat)
    (h1 : (stgen_hdr_size : Int) ≤ n) (h2 : n ≤ 1024) :
    serverStep now n buffer
      = [((decodeHdr buffer).seq % 2 ^ 32,
          latOf now ((decodeHdr buffer).send_time_us % 2 ^ 64))] ∧
    serverStepLines now n buffer
      = [logLine ((decodeHdr buffer).seq % 2 ^ 32)
          (latOf now ((decodeHdr buffer).send_time_us % 2 ^ 64))] := by
  have hg := serverStep_accepted now n buffer h1 (by omega)
  exact ⟨hg, by rw [serverStepLines, hg]; rfl⟩

/-- Witness for C10: a 13-byte datagram — header plus a 1-byte payload, far
from the nominal 112 bytes — is still parsed and logged. -/
theorem C10_length_is_only_criterion_witness :
    serverStep 7 13 [1, 0, 0, 0, 2, 0, 0, 0, 0, 0, 0, 0, 9]
      = [((decodeHdr [1, 0, 0, 0, 2, 0, 0, 0, 0, 0, 0, 0, 9]).seq % 2 ^ 32,
          latOf 7 ((decodeHdr [1, 0, 0, 0, 2, 0, 0, 0, 0, 0, 0, 0, 9]).send_time_us % 2 ^ 64))] ∧
    serverStepLines 7 13 [1, 0, 0, 0, 2, 0, 0, 0, 0, 0, 0, 0, 9]
      = [logLine ((decodeHdr [1, 0, 0, 0, 2, 0, 0, 0, 0, 0, 0, 0, 9]).seq % 2 ^ 32)
          (latOf 7 ((decodeHdr [1, 0, 0, 0, 2, 0, 0, 0, 0, 0, 0, 0, 9]).send_time_us % 2 ^ 64))] :=
  C10_length_is_only_criterion 7 13 [1, 0, 0, 0, 2, 0, 0, 0, 0, 0, 0, 0, 9]
    (by norm_num [stgen_hdr_size]) (by norm_num)

/-- C3: if the server receives, without loss and in order, exactly the `N`
datagrams the client transmitted, it produces exactly `N` log lines, the
sequence value of each line equals that of the corresponding sent packet,
and (for `N < 2^32`, before the 32-bit counter wraps) those values are
`1` through `N`. -/
theorem C3_lossless_inorder_log (ts nows pl : List Nat)
    (hpl : pl.length = payload_len) (hlen : nows.length = ts.length) :
    (serverRunLines (mkRecvEvents nows (clientPackets 0 ts) pl)).length
      = ts.length ∧
    (serverRun (mkRecvEvents nows (clientPackets 0 ts) pl)).map Prod.fst
      = (clientPackets 0 ts).map stgen_hdr_t.seq ∧
    (ts.length < 2 ^ 32 →
      (serverRun (mkRecvEvents nows (clientPackets 0 ts) pl)).map Prod.fst
        = (List.range ts.length).map (fun i => i + 1)) := by
  have hrun := serverRun_mkRecvEvents pl hpl (clientPackets 0 ts) nows
    (clientPackets_wf ts 0)
  have hfst : (serverRun (mkRecvEvents nows (clientPackets 0 ts) pl)).map
      Prod.fst = (clientPackets 0 ts).map stgen_hdr_t.seq := by
    rw [hrun]
    exact map_fst_zipWith_record nows (clientPackets 0 ts)
      (by rw [clientPackets_length, hlen])
  refine ⟨?_, hfst, fun hN => ?_⟩
  · rw [serverRunLines, List.length_map, hrun, List.length_zipWith,
      clientPackets_length, hlen, min_self]
  · rw [hfst, clientPackets_seq_map]
    refine List.map_congr_left fun i hi => ?_
    have : i < ts.length := List.mem_range.mp hi
    omega

/-- Witness for C3: two packets sent at times 10 and 20, received at times
15 and 30; the log has two lines with sequences 1 and 2. -/
theorem C3_lossless_inorder_log_witness :
    (serverRunLines (mkRecvEvents [15, 30] (clientPackets 0 [10, 20])
        (List.replicate 100 0))).length = [10, 20].length ∧
    (serverRun (mkRecvEvents [15, 30] (clientPackets 0 [10, 20])
        (List.replicate 100 0))).map Prod.fst
      = (clientPackets 0 [10, 20]).map stgen_hdr_t.seq ∧
    (serverRun (mkRecvEvents [15, 30] (clientPackets 0 [10, 20])
        (List.replicate 100 0))).map Prod.fst
      = (List.range [10, 20].length).map (fun i => i + 1) := by
  have h := C3_lossless_inorder_log [10, 20] [15, 30] (List.replicate 100 0)
    (by simp [payload_len]) (by norm_num)
  exact ⟨h.1, h.2.1, h.2.2 (by norm_num)⟩

theorem zipWith_congr_mem {α β γ : Type} (f g : α → β → γ) :
    ∀ (as : List α) (bs : List β),
      (∀ a ∈ as, ∀ b ∈ bs, f a b = g a b) →
      List.zipWith f as bs = List.zipWith g as bs := by
  intro as
  induction as with
  | nil => intro bs _; rfl
  | cons a as ih =>
    intro bs hc
    cases bs with
    | nil => rfl
    | cons b bs =>
      rw [List.zipWith_cons_cons, List.zipWith_cons_cons,
        hc a (List.mem_cons_self a as) b (List.mem_cons_self b bs),
        ih bs fun x hx y hy =>
          hc x (List.mem_cons_of_mem _ hx) y (List.mem_cons_of_mem _ hy)]

theorem clientLoop_all_true (ts : List Nat) :
    ∀ seq, clientLoop seq (ts.map fun t => (true, t))
      = (List.zipWith
          (fun t i =>
            [ClientAction.send ⟨(seq + i + 1) % 2 ^ 32, t % 2 ^ 64⟩
               (stgen_hdr_size + payload_len),
             ClientAction.sleep 100000])
          ts (List.range ts.length)).flatten := by
  induction ts with
  | nil => intro seq; rfl
  | cons t ts ih =>
    intro seq
    simp only [List.map_cons, clientLoop, List.length_cons,
      List.range_succ_eq_map, List.zipWith_cons_cons, List.zipWith_map_right,
      List.flatten_cons, ih ((seq + 1) % 2 ^ 32), Nat.add_zero,
      List.append_eq, List.nil_append, List.singleton_append,
      List.cons_append, Nat.succ_eq_add_one]
    have hz : List.zipWith
        (fun t i =>
          [ClientAction.send ⟨((seq + 1) % 2 ^ 32 + i + 1) % 2 ^ 32, t % 2 ^ 64⟩
             (stgen_hdr_size + payload_len),
           ClientAction.sleep 100000])
        ts (List.range ts.length)
        = List.zipWith
        (fun t i =>
          [ClientAction.send ⟨(seq + (i + 1) + 1) % 2 ^ 32, t % 2 ^ 64⟩
             (stgen_hdr_size + payload_len),
           ClientAction.sleep 100000])
        ts (List.range ts.length) := by
      refine zipWith_congr_mem _ _ ts (List.range ts.length) fun a _ b _ => ?_
      have hb : ((seq + 1) % 2 ^ 32 + b + 1) % 2 ^ 32
          = (seq + (b + 1) + 1) % 2 ^ 32 := by omega
      rw [hb]
    rw [hz]

theorem sentHeaders_clientLoop (ts : List Nat) :
    ∀ seq, (sentHeaders (clientLoop seq (ts.map fun t => (true, t)))).map
        stgen_hdr_t.seq
      = (List.range ts.length).map (fun i => (seq + i + 1) % 2 ^ 32) := by
  induction ts with
  | nil => intro seq; rfl
  | cons t ts ih =>
    intro seq
    simp only [List.map_cons, clientLoop, sentHeaders, List.filterMap_cons]
    rw [← sentHeaders]
    simp only [List.map_cons, List.length_cons, List.range_succ_eq_map,
      List.map_map, ih ((seq + 1) % 2 ^ 32), Nat.add_zero]
    refine congrArg₂ _ rfl (List.map_congr_left fun i _ => ?_)
    simp only [Function.comp_apply, Nat.succ_eq_add_one]
    omega

/-- C6: with the run flag observed true throughout, the client's loop
performs, for the `i`-th iteration (`i` counted from 0), exactly a
transmission of the full `sizeof(header) + 100`-byte datagram carrying
sequence `(i + 1) % 2^32` and the iteration's clock value, followed by a
100 ms (100000 µs) sleep; hence the sequence counter is 1 on the first
packet, increases by exactly 1 modulo `2^32` per packet, and is never
reset. -/
theorem C6_sequence_counter_and_iteration (ts : List Nat) :
    clientLoop 0 (ts.map fun t => (true, t))
      = (List.zipWith
          (fun t i =>
            [ClientAction.send ⟨(i + 1) % 2 ^ 32, t % 2 ^ 64⟩
               (stgen_hdr_size + payload_len),
             ClientAction.sleep 100000])
          ts (List.range ts.length)).flatten ∧
    (sentHeaders (clientLoop 0 (ts.map fun t => (true, t)))).map
        stgen_hdr_t.seq
      = (List.range ts.length).map (fun i => (i + 1) % 2 ^ 32) := by
  constructor
  · rw [clientLoop_all_true ts 0]
    refine congrArg _ (zipWith_congr_mem _ _ ts (List.range ts.length)
      fun a _ b _ => ?_)
    simp only [Nat.zero_add]
  · rw [sentHeaders_clientLoop ts 0]
    refine List.map_congr_left fun i _ => ?_
    simp only [Nat.zero_add]

theorem clientLoop_append_false (t : Nat) (rest : List (Bool × Nat))
    (pre : List (Bool × Nat)) :
    ∀ seq, clientLoop seq (pre ++ (false, t) :: rest) = clientLoop seq pre := by
  induction pre with
  | nil => intro seq; rfl
  | cons p pre ih =>
    intro seq
    rcases p with ⟨b, tp⟩
    cases b with
    | false => rfl
    | true => simp only [List.cons_append, clientLoop, List.append_eq, ih]

/-- C8: once the run flag has been cleared and the loop condition observes
it, the client transmits no further packet — the whole trace equals that of
the iterations before the cleared flag was observed — then frees its packet
buffer, closes its socket, and `main` returns status 0. -/
theorem C8_cooperative_shutdown (pre : List (Bool × Nat)) (t : Nat)
    (rest : List (Bool × Nat)) :
    clientMain (pre ++ (false, t) :: rest)
      = (clientLoop 0 pre ++ [ClientAction.freeBuf, ClientAction.closeSock],
         0) ∧
    (clientMain (pre ++ (false, t) :: rest)).2 = 0 := by
  rw [clientMain, clientLoop_append_false t rest pre 0]
  exact ⟨rfl, rfl⟩

/-- C7: with too few command-line arguments (client: `argc < 4`, i.e. fewer
than 3 positional arguments; server: `argc < 3`, i.e. fewer than 2), and on
server bind or log-open failure, the process writes an error to stderr and
exits with status 1; with a successful startup, nothing in the steady-state
loop produces a non-zero exit — both processes return 0. -/
theorem C7_fatal_startup (argv0 : String) (argcC argcS : Nat)
    (obs : List (Bool × Nat)) (b f : Bool) (evs : List RecvEvent) :
    (argcC < 4 → client_main argv0 argcC obs
      = (["Usage: " ++ argv0 ++ " <ip> <port> <id>\n"], [], 1)) ∧
    (argcS < 3 → server_main argv0 argcS b f evs
      = (["Usage: " ++ argv0 ++ " <ip> <port>\n"], [], 1)) ∧
    (3 ≤ argcS → b = false → server_main argv0 argcS b f evs
      = (["bind failed"], [], 1)) ∧
    (3 ≤ argcS → b = true → f = false → server_main argv0 argcS b f evs
      = (["recv.log"], [], 1)) ∧
    (4 ≤ argcC → (client_main argv0 argcC obs).1 = [] ∧
      (client_main argv0 argcC obs).2.2 = 0) ∧
    (3 ≤ argcS → b = true → f = true →
      (server_main argv0 argcS b f evs).1 = [] ∧
      (server_main argv0 argcS b f evs).2.2 = 0) := by
  refine ⟨fun h => ?_, fun h => ?_, fun h hb => ?_, fun h hb hf => ?_,
    fun h => ?_, fun h hb hf => ?_⟩
  · rw [client_main, if_pos h]
  · rw [server_main, if_pos h]
  · subst hb
    rw [server_main, if_neg (by omega), if_pos rfl]
  · subst hb; subst hf
    rw [server_main, if_neg (by omega)]
    simp
  · rw [client_main, if_neg (by omega)]
    exact ⟨rfl, rfl⟩
  · subst hb; subst hf
    rw [server_main, if_neg (by omega)]
    simp

/-- Witness for C7, covering each startup branch at concrete inputs:
client with 1 positional argument; server with 1 positional argument;
server bind failure; server log-open failure; and both steady-state
success paths. -/
theorem C7_fatal_startup_witness :
    client_main "cl" 2 [] = (["Usage: " ++ "cl" ++ " <ip> <port> <id>\n"], [], 1) ∧
    server_main "sv" 2 true true [] = (["Usage: " ++ "sv" ++ " <ip> <port>\n"], [], 1) ∧
    server_main "sv" 3 false true [] = (["bind failed"], [], 1) ∧
    server_main "sv" 3 true false [] = (["recv.log"], [], 1) ∧
    ((client_main "cl" 4 []).1 = [] ∧ (client_main "cl" 4 []).2.2 = 0) ∧
    ((server_main "sv" 3 true true []).1 = [] ∧
      (server_main "sv" 3 true true []).2.2 = 0) :=
  ⟨(C7_fatal_startup "cl" 2 2 [] true true []).1 (by norm_num),
   (C7_fatal_startup "sv" 2 2 [] true true []).2.1 (by norm_num),
   (C7_fatal_startup "sv" 2 3 [] false true []).2.2.1 (by norm_num) rfl,
   (C7_fatal_startup "sv" 2 3 [] true false []).2.2.2.1 (by norm_num) rfl rfl,
   (C7_fatal_startup "cl" 4 2 [] true true []).2.2.2.2.1 (by norm_num),
   (C7_fatal_startup "sv" 2 3 [] true true []).2.2.2.2.2 (by norm_num) rfl rfl⟩

end STGen
